import Mathlib

/-!
Verification of the SuperStore KPI dashboard pipeline (`src/app.py`).

The script is a linear pandas pipeline: load the dataset, apply five
cascading categorical filters plus a date range, compute four KPIs, and
build several grouped views.  We embed the pipeline shallowly:

* a pandas row becomes a `Record`; `Order Date` is a `Date` triple
  (pandas datetimes are totally ordered, which is all the script uses
  besides `.dt.year` and `.dt.to_period('Q')`);
* `Sales` and `Profit` become `ℚ`, `Quantity` becomes `ℤ`;
* a DataFrame becomes a `List Record`; boolean-mask filtering becomes
  `List.filter`; `sorted(s.dropna().unique())` becomes an insertion sort
  of `uniqueKeys`; `groupby(...).agg({"sum"})` becomes grouping by the
  sorted list of distinct keys and summing each group;
* `sort_values(by=k, ascending=False)` becomes the reverse of a stable
  ascending insertion sort, which is exactly pandas `nargsort` semantics
  (pandas computes an ascending argsort and reverses the indexer; for
  the counterexamples used here, with fewer than 16 rows, numpy's
  quicksort is the stable insertion sort);
* the aliasing/mutation behaviour of the script (`.copy()`, in-place
  column writes) is modelled separately by a small store of frames.
-/

/-- Order dates: pandas datetimes, modelled as year/month/day triples. -/
structure Date where
  year : Int
  month : Nat
  day : Nat
deriving DecidableEq, Repr

/-- Lexicographic `≤` on dates, matching pandas datetime comparison. -/
def Date.le (a b : Date) : Prop :=
  a.year < b.year ∨ (a.year = b.year ∧
    (a.month < b.month ∨ (a.month = b.month ∧ a.day ≤ b.day)))

/-- Lexicographic `<` on dates. -/
def Date.lt (a b : Date) : Prop :=
  a.year < b.year ∨ (a.year = b.year ∧
    (a.month < b.month ∨ (a.month = b.month ∧ a.day < b.day)))

instance : DecidableRel Date.le := fun a b => by
  unfold Date.le; exact inferInstance

instance : DecidableRel Date.lt := fun a b => by
  unfold Date.lt; exact inferInstance

/-- Boolean date comparison used when sorting grouping keys. -/
def Date.leB (a b : Date) : Bool := decide (Date.le a b)

/-- `df['Order Date'].dt.year` for a date. -/
def Date.yearOf (d : Date) : Int := d.year

/-- `df['Order Date'].dt.to_period('Q').astype(str)`: the label "YYYYQn". -/
def Date.quarterLabel (d : Date) : String :=
  toString d.year ++ "Q" ++ toString ((d.month - 1) / 3 + 1)

/-- One transaction row of the Superstore table (the columns the
pipeline reads). -/
structure Record where
  orderDate : Date
  region : String
  state : String
  category : String
  subCategory : String
  segment : String
  productName : String
  sales : ℚ
  profit : ℚ
  quantity : ℤ
deriving DecidableEq, Repr

/-- The sidebar filter state: five categorical selectors (the string
"All" is the synthetic no-constraint option, exactly as in the script)
plus the inclusive date range. -/
structure FilterState where
  region : String
  state : String
  category : String
  subCategory : String
  segment : String
  fromDate : Date
  toDate : Date
deriving DecidableEq, Repr

/-! ### Sorting (model of python `sorted` and pandas stable argsort) -/

/-- Insert into a sorted list: the first position whose element is not
`le`-after the new one.  With `le x y` meaning `key x ≤ key y` this is
the stable insertion. -/
def orderedInsert (le : α → α → Bool) (a : α) : List α → List α
  | [] => [a]
  | b :: l => if le a b then a :: b :: l else b :: orderedInsert le a l

/-- Stable insertion sort by a boolean comparison. -/
def insertionSort (le : α → α → Bool) : List α → List α
  | [] => []
  | a :: l => orderedInsert le a (insertionSort le l)

theorem perm_orderedInsert (le : α → α → Bool) (a : α) (l : List α) :
    List.Perm (orderedInsert le a l) (a :: l) := by
  induction l with
  | nil => simp [orderedInsert]
  | cons b l ih =>
    simp only [orderedInsert]
    by_cases h : le a b
    · rw [if_pos h]
    · rw [if_neg h]
      exact (ih.cons b).trans (List.Perm.swap a b l)

theorem perm_insertionSort (le : α → α → Bool) (l : List α) :
    List.Perm (insertionSort le l) l := by
  induction l with
  | nil => exact List.Perm.refl []
  | cons a l ih =>
    simp only [insertionSort]
    exact (perm_orderedInsert le a (insertionSort le l)).trans (ih.cons a)

/-- Sortedness of a list with respect to a boolean comparison. -/
def SortedB (le : α → α → Bool) (l : List α) : Prop :=
  l.Pairwise (fun a b => le a b = true)

theorem sortedB_orderedInsert (le : α → α → Bool)
    (htot : ∀ a b, le a b = true ∨ le b a = true)
    (htrans : ∀ a b c, le a b = true → le b c = true → le a c = true)
    (a : α) (l : List α)
    (h : SortedB le l) : SortedB le (orderedInsert le a l) := by
  induction l with
  | nil => simp [orderedInsert, SortedB]
  | cons b l ih =>
    rcases h with _ | ⟨hb, hl⟩
    simp only [orderedInsert]
    by_cases hab : le a b
    · rw [if_pos hab]
      refine List.Pairwise.cons ?_ (List.Pairwise.cons hb hl)
      intro c hc
      rcases List.mem_cons.mp hc with rfl | hcl
      · exact hab
      · exact htrans a b c hab (hb c hcl)
    · rw [if_neg hab]
      refine List.Pairwise.cons ?_ (ih hl)
      intro c hc
      have hmem : c = a ∨ c ∈ l := by
        have := (perm_orderedInsert le a l).mem_iff.mp hc
        simpa using this
      rcases hmem with hca | hcl
      · rw [hca]
        rcases htot a b with h1 | h1
        · exact absurd h1 hab
        · exact h1
      · exact hb c hcl

theorem sortedB_insertionSort (le : α → α → Bool)
    (htot : ∀ a b, le a b = true ∨ le b a = true)
    (htrans : ∀ a b c, le a b = true → le b c = true → le a c = true)
    (l : List α) :
    SortedB le (insertionSort le l) := by
  induction l with
  | nil => exact List.Pairwise.nil
  | cons a l ih =>
    exact sortedB_orderedInsert le htot htrans a (insertionSort le l) ih

/-! ### The cascading filters (`src/app.py` lines 28–99) -/

/-- One categorical filter stage: `if sel != "All": d[d[col] == sel]`
else pass the frame through unchanged. -/
def filterEq (get : Record → String) (sel : String) (l : List Record) :
    List Record :=
  if sel = "All" then l else l.filter (fun r => decide (get r = sel))

/-- Lexicographic comparison of char lists by code point: python's
string `<=`. -/
def charListLe : List Char → List Char → Bool
  | [], _ => true
  | _ :: _, [] => false
  | a :: as, b :: bs =>
    if a.toNat < b.toNat then true
    else if b.toNat < a.toNat then false
    else charListLe as bs

/-- Boolean string comparison used by python `sorted` on column
values: lexicographic by code point. -/
def strLe (a b : String) : Bool := charListLe a.data b.data

/-- `Series.unique()`: the distinct values in first-occurrence order. -/
def uniqueKeys {κ : Type} [DecidableEq κ] : List κ → List κ
  | [] => []
  | a :: l => a :: (uniqueKeys l).filter (fun b => decide (b ≠ a))

theorem uniqueKeys_nodup {κ : Type} [DecidableEq κ] (l : List κ) :
    (uniqueKeys l).Nodup := by
  induction l with
  | nil => exact List.Pairwise.nil
  | cons a l ih =>
    refine List.Pairwise.cons ?_ (ih.filter _)
    intro b hb hba
    rcases List.mem_filter.mp hb with ⟨h1, h2⟩
    exact absurd rfl (of_decide_eq_true (hba ▸ h2))

theorem mem_uniqueKeys {κ : Type} [DecidableEq κ] (l : List κ) (x : κ) :
    x ∈ uniqueKeys l ↔ x ∈ l := by
  induction l with
  | nil => simp [uniqueKeys]
  | cons a l ih =>
    simp only [uniqueKeys, List.mem_cons, List.mem_filter]
    by_cases hxa : x = a
    · simp [hxa]
    · simp [hxa, ih]

/-- `sorted(d[col].dropna().unique())` with `"All"` prepended: the
option list offered for one selector (the model carries no NA values,
so `dropna` is the identity). -/
def optionsOf (get : Record → String) (l : List Record) : List String :=
  "All" :: insertionSort strLe (uniqueKeys (l.map get))

/-- `df_filtered_region` (lines 32–35). -/
def df_filtered_region (rows : List Record) (fs : FilterState) :
    List Record :=
  filterEq Record.region fs.region rows

/-- `df_filtered_state` (lines 42–45). -/
def df_filtered_state (rows : List Record) (fs : FilterState) :
    List Record :=
  filterEq Record.state fs.state (df_filtered_region rows fs)

/-- `df_filtered_category` (lines 52–55). -/
def df_filtered_category (rows : List Record) (fs : FilterState) :
    List Record :=
  filterEq Record.category fs.category (df_filtered_state rows fs)

/-- `df` after the Sub-Category stage (lines 62–64; the `.copy()` has no
effect on contents). -/
def df_subcat (rows : List Record) (fs : FilterState) : List Record :=
  filterEq Record.subCategory fs.subCategory (df_filtered_category rows fs)

/-- `df` after the Segment stage (lines 71–73). -/
def df_segment (rows : List Record) (fs : FilterState) : List Record :=
  filterEq Record.segment fs.segment (df_subcat rows fs)

/-- The date-range mask of lines 96–99, applied to the categorically
filtered frame: keep rows with `from ≤ Order Date ≤ to`. -/
def applyFilters (rows : List Record) (fs : FilterState) : List Record :=
  (df_segment rows fs).filter
    (fun r => decide (Date.le fs.fromDate r.orderDate) &&
      decide (Date.le r.orderDate fs.toDate))

/-- Line 92: the script reports a (non-fatal) message when
`from_date > to_date`, then filters anyway. -/
def dateRangeError (fs : FilterState) : Bool :=
  decide (Date.lt fs.toDate fs.fromDate)

/-- The option lists of the five selectors, each computed on the frame
narrowed by the stages before it (lines 28, 38, 48, 58, 67). -/
def region_options (rows : List Record) : List String :=
  optionsOf Record.region rows

def state_options (rows : List Record) (fs : FilterState) : List String :=
  optionsOf Record.state (df_filtered_region rows fs)

def category_options (rows : List Record) (fs : FilterState) : List String :=
  optionsOf Record.category (df_filtered_state rows fs)

def subcat_options (rows : List Record) (fs : FilterState) : List String :=
  optionsOf Record.subCategory (df_filtered_category rows fs)

def segment_options (rows : List Record) (fs : FilterState) : List String :=
  optionsOf Record.segment (df_subcat rows fs)

/-! ### KPIs (lines 134–143) -/

/-- `total_sales`: 0 for an empty frame, else the column sum. -/
def total_sales (l : List Record) : ℚ :=
  if l.isEmpty then 0 else (l.map Record.sales).sum

/-- `total_quantity`. -/
def total_quantity (l : List Record) : ℤ :=
  if l.isEmpty then 0 else (l.map Record.quantity).sum

/-- `total_profit`. -/
def total_profit (l : List Record) : ℚ :=
  if l.isEmpty then 0 else (l.map Record.profit).sum

/-- `margin_rate` (line 143): `(total_profit / total_sales) if
total_sales != 0 else 0`, and 0 for an empty frame. -/
def margin_rate (l : List Record) : ℚ :=
  if l.isEmpty then 0
  else if total_sales l ≠ 0 then total_profit l / total_sales l else 0

/-- The spec's pure function `marginRate(sales, profit) =
profit / (sales if sales != 0 else 1)`; the per-group views compute the
same function as `Profit / Sales.replace(0, 1)`. -/
def marginRate (sales profit : ℚ) : ℚ :=
  profit / (if sales ≠ 0 then sales else 1)

/-! ### Grouped views (lines 200–266, 288, 380–385) -/

/-- One row of a grouped view: the grouping key, the summed metrics and
the derived Margin Rate column. -/
structure AggRow (κ : Type) where
  key : κ
  sales : ℚ
  quantity : ℤ
  profit : ℚ
  marginRate : ℚ
deriving DecidableEq, Repr

/-- `d.groupby(key).agg({"Sales": "sum", "Quantity": "sum",
"Profit": "sum"}).reset_index()` followed by `out["Margin Rate"] =
out["Profit"] / out["Sales"].replace(0, 1)`: one output row per
distinct key, keys in ascending order (pandas `groupby` sorts keys),
metrics summed over the key's rows. -/
def aggView [DecidableEq κ] (kle : κ → κ → Bool) (key : Record → κ)
    (rows : List Record) : List (AggRow κ) :=
  (insertionSort kle (uniqueKeys (rows.map key))).map (fun k =>
    let g := rows.filter (fun r => decide (key r = k))
    let s := (g.map Record.sales).sum
    let p := (g.map Record.profit).sum
    { key := k
      sales := s
      quantity := (g.map Record.quantity).sum
      profit := p
      marginRate := p / (if s = 0 then 1 else s) })

/-- Ascending order on (year, segment) grouping keys. -/
def intStrLe (a b : Int × String) : Bool :=
  decide (a.1 < b.1) || (decide (a.1 = b.1) && strLe a.2 b.2)

/-- Ascending order on string-pair grouping keys. -/
def strPairLe (a b : String × String) : Bool :=
  decide (a.1 < b.1) || (decide (a.1 = b.1) && strLe a.2 b.2)

/-- `daily_grouped` (lines 200–206): group by Order Date. -/
def daily_grouped (rows : List Record) : List (AggRow Date) :=
  aggView Date.leB Record.orderDate rows

/-- `product_grouped` (lines 209–214): group by Product Name. -/
def product_grouped (rows : List Record) : List (AggRow String) :=
  aggView strLe Record.productName rows

/-- `year_segment_grouped` (lines 221–227): group by (Year, Segment). -/
def year_segment_grouped (rows : List Record) :
    List (AggRow (Int × String)) :=
  aggView intStrLe (fun r => (r.orderDate.yearOf, r.segment)) rows

/-- Line 231: `df["State"] = df["State"].apply(lambda x:
us.states.lookup(x).abbr if us.states.lookup(x) else x)`.  The `us`
package's table is external to the repository, so it is a parameter;
`none` means an unrecognized name, which passes through unchanged. -/
def normalizeState (lookup : String → Option String) (r : Record) :
    Record :=
  { r with state := (lookup r.state).getD r.state }

/-- `state_grouped` (lines 231–238): normalize the State column, then
group by State. -/
def state_grouped (lookup : String → Option String)
    (rows : List Record) : List (AggRow String) :=
  aggView strLe Record.state (rows.map (normalizeState lookup))

/-- `quarterly_grouped` (lines 244–254): group by the quarter label. -/
def quarterly_grouped (rows : List Record) : List (AggRow String) :=
  aggView strLe (fun r => r.orderDate.quarterLabel) rows

/-- `quarterly_data` (lines 259–266): group by (Quarter, Category). -/
def quarterly_data (rows : List Record) :
    List (AggRow (String × String)) :=
  aggView strPairLe (fun r => (r.orderDate.quarterLabel, r.category)) rows

/-- Line 288: the per-row Margin Rate column
`df["Margin Rate"] = df["Profit"] / df["Sales"].replace(0, 1)`. -/
def rowMarginRate (r : Record) : ℚ :=
  r.profit / (if r.sales = 0 then 1 else r.sales)

/-- `df_grouped_new` (lines 380–385):
`df.groupby(["Category", "Quarter"]).agg({..., "Margin Rate": "sum"})`.
The Margin Rate of a (Category, Quarter) group is the SUM of the
per-row margin rates added at line 288, not a ratio of the sums. -/
def df_grouped_new (rows : List Record) :
    List (AggRow (String × String)) :=
  (insertionSort strPairLe
      (uniqueKeys (rows.map (fun r => (r.category, r.orderDate.quarterLabel))))).map
    (fun k =>
      let g := rows.filter
        (fun r => decide ((r.category, r.orderDate.quarterLabel) = k))
      { key := k
        sales := (g.map Record.sales).sum
        quantity := (g.map Record.quantity).sum
        profit := (g.map Record.profit).sum
        marginRate := (g.map rowMarginRate).sum })

/-! ### Top-10 ranking (lines 216–218) -/

/-- The four options of the KPI radio button (line 195). -/
inductive KPI
  | sales
  | quantity
  | profit
  | marginRate
deriving DecidableEq, Repr

/-- The column a KPI selects in a grouped view (Quantity read as `ℚ`
so every metric sorts as a number). -/
def KPI.value : KPI → AggRow κ → ℚ
  | KPI.sales, r => r.sales
  | KPI.quantity, r => (r.quantity : ℚ)
  | KPI.profit, r => r.profit
  | KPI.marginRate, r => r.marginRate

/-- `sort_values(by=metric, ascending=False)`: pandas `nargsort`
computes an ascending argsort and reverses the indexer, so the
descending order is the reverse of the stable ascending sort (rows
with equal metric end up in reverse frame order). -/
def sort_values_desc (metric : AggRow κ → ℚ) (l : List (AggRow κ)) :
    List (AggRow κ) :=
  (insertionSort (fun a b => decide (metric a ≤ metric b)) l).reverse

/-- Lines 217–218: `product_grouped.sort_values(by=selected_kpi,
ascending=False)` then `top_10 = product_grouped.head(10)`. -/
def top_10 (rows : List Record) (kpi : KPI) : List (AggRow String) :=
  (sort_values_desc kpi.value (product_grouped rows)).take 10

/-- Modelled from the spec (§4.3): `topN(view, metric, n=10)` sorts the
view descending by the metric with ties in the view's original order (a
stable descending sort) and truncates to `n`.  Stated only to compare
the spec's ranking contract with the code's. -/
def topN_spec (metric : AggRow κ → ℚ) (n : Nat)
    (view : List (AggRow κ)) : List (AggRow κ) :=
  (insertionSort (fun a b => decide (metric b ≤ metric a)) view).take n

/-! ### Sum-partition lemmas (for the additivity law) -/

theorem sum_map_ite_eq {M : Type} [AddCommMonoid M] {κ : Type}
    [DecidableEq κ] (K : List κ) (a : κ) (c : M)
    (hnd : K.Nodup) (ha : a ∈ K) :
    (K.map (fun k => if a = k then c else 0)).sum = c := by
  induction K with
  | nil => cases ha
  | cons b K ih =>
    rcases List.nodup_cons.mp hnd with ⟨hb, hnd2⟩
    by_cases hab : a = b
    · subst hab
      have hz : ∀ x ∈ K.map (fun k => if a = k then c else (0 : M)), x = 0 := by
        intro x hx
        rcases List.mem_map.mp hx with ⟨k, hk, rfl⟩
        have : a ≠ k := fun h => hb (h ▸ hk)
        simp [this]
      simp [List.sum_eq_zero hz]
    · have ha2 : a ∈ K := by
        rcases List.mem_cons.mp ha with h | h
        · exact absurd h hab
        · exact h
      simp [hab, ih hnd2 ha2]

theorem sum_map_add_distrib {M : Type} [AddCommMonoid M] {κ : Type}
    (l : List κ) (f g : κ → M) :
    (l.map (fun k => f k + g k)).sum = (l.map f).sum + (l.map g).sum := by
  induction l with
  | nil => simp
  | cons a l ih => simp [ih, add_add_add_comm]

/-- Summing a column group-by-group over a complete, duplicate-free
list of keys gives the whole column's sum. -/
theorem sum_map_filter_key {M : Type} [AddCommMonoid M] {κ : Type}
    [DecidableEq κ] (f : Record → M) (key : Record → κ) (K : List κ)
    (hnd : K.Nodup) (rows : List Record)
    (hcov : ∀ r ∈ rows, key r ∈ K) :
    (K.map (fun k =>
      ((rows.filter (fun r => decide (key r = k))).map f).sum)).sum
      = (rows.map f).sum := by
  induction rows with
  | nil => simp
  | cons r rows ih =>
    have hstep : ∀ k ∈ K,
        ((List.filter (fun x => decide (key x = k)) (r :: rows)).map f).sum
          = (if key r = k then f r else 0)
            + ((rows.filter (fun x => decide (key x = k))).map f).sum := by
      intro k _
      rw [List.filter_cons]
      by_cases h : key r = k
      · simp [h]
      · simp [h]
    rw [List.map_congr_left hstep, sum_map_add_distrib]
    have h1 : (K.map (fun k => if key r = k then f r else (0 : M))).sum = f r :=
      sum_map_ite_eq K (key r) (f r) hnd (hcov r (List.mem_cons_self r rows))
    have h2 := ih (fun x hx => hcov x (List.mem_cons_of_mem r hx))
    rw [h1, h2, List.map_cons, List.sum_cons]

/-- The sorted distinct keys of a grouping: no duplicates, and every
row's key occurs. -/
theorem sortedKeys_nodup_cov {κ : Type} [DecidableEq κ]
    (kle : κ → κ → Bool) (key : Record → κ) (rows : List Record) :
    (insertionSort kle (uniqueKeys (rows.map key))).Nodup ∧
      ∀ r ∈ rows, key r ∈ insertionSort kle (uniqueKeys (rows.map key)) := by
  constructor
  · exact (perm_insertionSort kle (uniqueKeys (rows.map key))).symm.nodup
      (uniqueKeys_nodup _)
  · intro r hr
    rw [(perm_insertionSort kle (uniqueKeys (rows.map key))).mem_iff,
      mem_uniqueKeys]
    exact List.mem_map_of_mem key hr

/-! ### Frame store: aliasing and in-place writes

The script mutates pandas objects in place (`df['Year'] = ...`,
`df['State'] = ...`, `df['Quarter'] = ...`, `df['Margin Rate'] = ...`)
and aliases frames (`df_filtered_region = df_original` when Region is
"All").  To settle whether `df_original` is ever mutated we model the
object level: every frame lives at an address in a store; boolean-mask
selection and `.copy()` return fresh addresses, a selector set to "All"
returns the same address, and a column write mutates one address. -/

/-- A row as the script may extend it: the base record plus the
optional derived Year, Quarter and per-row Margin Rate columns. -/
structure XRecord where
  base : Record
  yearCol : Option Int
  quarterCol : Option String
  marginCol : Option ℚ
deriving DecidableEq, Repr

/-- A store of mutable frames, addressed by naturals; `next` is the
next fresh address. -/
structure Store where
  mem : Nat → List XRecord
  next : Nat

/-- Read the frame at an address. -/
def Store.read (s : Store) (i : Nat) : List XRecord := s.mem i

/-- Allocate a fresh frame: what boolean-mask selection, `.copy()` and
`reset_index()` return. -/
def Store.alloc (s : Store) (rows : List XRecord) : Store × Nat :=
  (⟨Function.update s.mem s.next rows, s.next + 1⟩, s.next)

/-- An in-place column write `frame[col] = ...` on the frame at `i`. -/
def Store.writeCol (s : Store) (i : Nat) (f : XRecord → XRecord) :
    Store :=
  ⟨Function.update s.mem i ((s.mem i).map f), s.next⟩

theorem Store.read_alloc (s : Store) (rows : List XRecord) (i : Nat)
    (h : i < s.next) : ((s.alloc rows).1).read i = s.read i := by
  have hne : i ≠ s.next := by omega
  simp only [Store.alloc, Store.read]
  rw [Function.update_noteq hne]

theorem Store.read_writeCol_ne (s : Store) (i j : Nat)
    (f : XRecord → XRecord) (h : i ≠ j) :
    (s.writeCol j f).read i = s.read i := by
  simp only [Store.writeCol, Store.read]
  rw [Function.update_noteq h]

theorem Store.next_alloc (s : Store) (rows : List XRecord) :
    ((s.alloc rows).1).next = s.next + 1 := rfl

theorem Store.id_alloc (s : Store) (rows : List XRecord) :
    (s.alloc rows).2 = s.next := rfl

theorem Store.next_writeCol (s : Store) (i : Nat)
    (f : XRecord → XRecord) : (s.writeCol i f).next = s.next := rfl

/-- One sidebar selector stage at the object level: a set selection
allocates the mask-selected frame, "All" aliases the incoming frame
(`df_filtered_region = df_original`). -/
def stageFilter (s : Store) (i : Nat) (sel : String)
    (get : XRecord → String) : Store × Nat :=
  if sel = "All" then (s, i)
  else s.alloc ((s.read i).filter (fun r => decide (get r = sel)))

theorem stageFilter_read (s : Store) (i : Nat) (sel : String)
    (get : XRecord → String) (j : Nat) (h : j < s.next) :
    ((stageFilter s i sel get).1).read j = s.read j := by
  unfold stageFilter
  split
  · rfl
  · exact Store.read_alloc s _ j h

theorem stageFilter_next_le (s : Store) (i : Nat) (sel : String)
    (get : XRecord → String) :
    s.next ≤ ((stageFilter s i sel get).1).next := by
  unfold stageFilter
  split
  · exact Nat.le_refl _
  · rw [Store.next_alloc]; omega

/-- The loaded frame as `XRecord`s (no derived columns yet). -/
def baseFrame (rows : List Record) : List XRecord :=
  rows.map (fun r =>
    { base := r, yearCol := none, quarterCol := none, marginCol := none })

/-- `df_original = load_data()` (line 22): frame 0 of the store. -/
def loadStore (rows : List Record) : Store :=
  ⟨Function.update (fun _ => []) 0 (baseFrame rows), 1⟩

/-- Lines 32–35. -/
def stRegion (rows : List Record) (fs : FilterState) : Store × Nat :=
  stageFilter (loadStore rows) 0 fs.region (fun x => x.base.region)

/-- Lines 42–45. -/
def stState (rows : List Record) (fs : FilterState) : Store × Nat :=
  stageFilter (stRegion rows fs).1 (stRegion rows fs).2 fs.state
    (fun x => x.base.state)

/-- Lines 52–55. -/
def stCategory (rows : List Record) (fs : FilterState) : Store × Nat :=
  stageFilter (stState rows fs).1 (stState rows fs).2 fs.category
    (fun x => x.base.category)

/-- Line 62: `df = df_filtered_category.copy()`. -/
def stCopy1 (rows : List Record) (fs : FilterState) : Store × Nat :=
  ((stCategory rows fs).1).alloc
    (((stCategory rows fs).1).read (stCategory rows fs).2)

/-- Lines 63–64. -/
def stSubcat (rows : List Record) (fs : FilterState) : Store × Nat :=
  stageFilter (stCopy1 rows fs).1 (stCopy1 rows fs).2 fs.subCategory
    (fun x => x.base.subCategory)

/-- Line 71: `df = df.copy()`. -/
def stCopy2 (rows : List Record) (fs : FilterState) : Store × Nat :=
  ((stSubcat rows fs).1).alloc
    (((stSubcat rows fs).1).read (stSubcat rows fs).2)

/-- Lines 72–73. -/
def stSegment (rows : List Record) (fs : FilterState) : Store × Nat :=
  stageFilter (stCopy2 rows fs).1 (stCopy2 rows fs).2 fs.segment
    (fun x => x.base.segment)

/-- Lines 96–99: the date mask allocates the final `df`. -/
def stDate (rows : List Record) (fs : FilterState) : Store × Nat :=
  ((stSegment rows fs).1).alloc
    ((((stSegment rows fs).1).read (stSegment rows fs).2).filter
      (fun x => decide (Date.le fs.fromDate x.base.orderDate) &&
        decide (Date.le x.base.orderDate fs.toDate)))

/-- Line 221: `df['Year'] = df['Order Date'].dt.year`. -/
def stYear (rows : List Record) (fs : FilterState) : Store :=
  ((stDate rows fs).1).writeCol (stDate rows fs).2
    (fun x => { x with yearCol := some x.base.orderDate.yearOf })

/-- Line 231: the in-place State-name normalization. -/
def stStateNorm (rows : List Record) (fs : FilterState)
    (lookup : String → Option String) : Store :=
  (stYear rows fs).writeCol (stDate rows fs).2
    (fun x => { x with base := normalizeState lookup x.base })

/-- Line 243: `df['Order Date'] = pd.to_datetime(df['Order Date'])`,
a re-parse of an already-typed column: contents unchanged, still an
in-place write. -/
def stReparse (rows : List Record) (fs : FilterState)
    (lookup : String → Option String) : Store :=
  (stStateNorm rows fs lookup).writeCol (stDate rows fs).2 (fun x => x)

/-- Line 244: `df['Quarter'] = ...`. -/
def stQuarter (rows : List Record) (fs : FilterState)
    (lookup : String → Option String) : Store :=
  (stReparse rows fs lookup).writeCol (stDate rows fs).2
    (fun x => { x with quarterCol := some x.base.orderDate.quarterLabel })

/-- Line 288: `df["Margin Rate"] = ...` — the last in-place write; the
grouped views only read `df` and build fresh frames. -/
def pipelineStore (rows : List Record) (fs : FilterState)
    (lookup : String → Option String) : Store :=
  (stQuarter rows fs lookup).writeCol (stDate rows fs).2
    (fun x => { x with marginCol := some (rowMarginRate x.base) })

theorem stCategory_next_pos (rows : List Record) (fs : FilterState) :
    0 < ((stCategory rows fs).1).next := by
  have h0 : (loadStore rows).next = 1 := rfl
  have h1 : (loadStore rows).next ≤ ((stRegion rows fs).1).next :=
    stageFilter_next_le _ _ _ _
  have h2 : ((stRegion rows fs).1).next ≤ ((stState rows fs).1).next :=
    stageFilter_next_le _ _ _ _
  have h3 : ((stState rows fs).1).next ≤ ((stCategory rows fs).1).next :=
    stageFilter_next_le _ _ _ _
  omega

theorem stSegment_next_pos (rows : List Record) (fs : FilterState) :
    0 < ((stSegment rows fs).1).next := by
  have h1 := stCategory_next_pos rows fs
  have h2 : ((stCopy1 rows fs).1).next = ((stCategory rows fs).1).next + 1 :=
    rfl
  have h3 : ((stCopy1 rows fs).1).next ≤ ((stSubcat rows fs).1).next :=
    stageFilter_next_le _ _ _ _
  have h4 : ((stCopy2 rows fs).1).next = ((stSubcat rows fs).1).next + 1 :=
    rfl
  have h5 : ((stCopy2 rows fs).1).next ≤ ((stSegment rows fs).1).next :=
    stageFilter_next_le _ _ _ _
  omega

theorem stDate_id_pos (rows : List Record) (fs : FilterState) :
    0 < (stDate rows fs).2 := by
  have h := stSegment_next_pos rows fs
  have h2 : (stDate rows fs).2 = ((stSegment rows fs).1).next := rfl
  omega

/-! ### Helper lemmas and concrete fixtures -/

theorem charListLe_cons (a b : Char) (as bs : List Char) :
    charListLe (a :: as) (b :: bs) = true ↔
      a.toNat < b.toNat ∨ (a.toNat = b.toNat ∧ charListLe as bs = true) := by
  rcases Nat.lt_trichotomy a.toNat b.toNat with h | h | h
  · simp [charListLe, h]
  · have h1 : ¬ a.toNat < b.toNat := by omega
    have h2 : ¬ b.toNat < a.toNat := by omega
    simp [charListLe, h1, h2, h]
  · have h1 : ¬ a.toNat < b.toNat := by omega
    have h2 : a.toNat ≠ b.toNat := by omega
    simp [charListLe, h1, h, h2]

theorem charListLe_total (xs ys : List Char) :
    charListLe xs ys = true ∨ charListLe ys xs = true := by
  induction xs generalizing ys with
  | nil => exact Or.inl rfl
  | cons a as ih =>
    cases ys with
    | nil => exact Or.inr rfl
    | cons b bs =>
      rw [charListLe_cons, charListLe_cons]
      rcases Nat.lt_trichotomy a.toNat b.toNat with h | h | h
      · exact Or.inl (Or.inl h)
      · rcases ih bs with h1 | h1
        · exact Or.inl (Or.inr ⟨h, h1⟩)
        · exact Or.inr (Or.inr ⟨h.symm, h1⟩)
      · exact Or.inr (Or.inl h)

theorem charListLe_trans (xs ys zs : List Char)
    (h1 : charListLe xs ys = true) (h2 : charListLe ys zs = true) :
    charListLe xs zs = true := by
  induction xs generalizing ys zs with
  | nil => rfl
  | cons a as ih =>
    cases ys with
    | nil => exact absurd h1 (by simp [charListLe])
    | cons b bs =>
      cases zs with
      | nil => exact absurd h2 (by simp [charListLe])
      | cons c cs =>
        rw [charListLe_cons] at h1 h2 ⊢
        rcases h1 with h1 | ⟨he1, h1⟩
        · rcases h2 with h2 | ⟨he2, h2⟩
          · exact Or.inl (by omega)
          · exact Or.inl (by omega)
        · rcases h2 with h2 | ⟨he2, h2⟩
          · exact Or.inl (by omega)
          · exact Or.inr ⟨by omega, ih bs cs h1 h2⟩

theorem strLe_total (a b : String) : strLe a b = true ∨ strLe b a = true :=
  charListLe_total a.data b.data

theorem strLe_trans (a b c : String) (h1 : strLe a b = true)
    (h2 : strLe b c = true) : strLe a c = true :=
  charListLe_trans a.data b.data c.data h1 h2

theorem mem_filterEq (get : Record → String) (sel : String)
    (l : List Record) (r : Record) (h : r ∈ filterEq get sel l) :
    r ∈ l ∧ (sel ≠ "All" → get r = sel) := by
  unfold filterEq at h
  by_cases hsel : sel = "All"
  · rw [if_pos hsel] at h
    exact ⟨h, fun hne => absurd hsel hne⟩
  · rw [if_neg hsel] at h
    rcases List.mem_filter.mp h with ⟨h1, h2⟩
    exact ⟨h1, fun _ => of_decide_eq_true h2⟩

theorem total_sales_eq_sum (rows : List Record) :
    total_sales rows = (rows.map Record.sales).sum := by
  cases rows with
  | nil => rfl
  | cons r l => rfl

theorem total_quantity_eq_sum (rows : List Record) :
    total_quantity rows = (rows.map Record.quantity).sum := by
  cases rows with
  | nil => rfl
  | cons r l => rfl

theorem total_profit_eq_sum (rows : List Record) :
    total_profit rows = (rows.map Record.profit).sum := by
  cases rows with
  | nil => rfl
  | cons r l => rfl

/-- Every row of every `aggView` carries
`Margin Rate = marginRate(SumSales, SumProfit)`: the column formula
`Profit / Sales.replace(0, 1)` is the spec's `marginRate` of the sums. -/
theorem aggView_marginRate {κ : Type} [DecidableEq κ]
    (kle : κ → κ → Bool) (key : Record → κ) (rows : List Record)
    (g : AggRow κ) (hg : g ∈ aggView kle key rows) :
    g.marginRate = marginRate g.sales g.profit := by
  unfold aggView at hg
  rcases List.mem_map.mp hg with ⟨k, hk, rfl⟩
  by_cases hs0 :
      ((rows.filter (fun r => decide (key r = k))).map Record.sales).sum = 0
  · simp [marginRate, hs0]
  · simp [marginRate, hs0]

/-- A concrete row used by witnesses. -/
def eastRow : Record :=
  { orderDate := ⟨2016, 3, 10⟩, region := "East", state := "New York",
    category := "Furniture", subCategory := "Chairs",
    segment := "Consumer", productName := "Desk Chair",
    sales := 100, profit := 20, quantity := 2 }

/-- The all-pass filter state with a wide date range. -/
def allFs : FilterState :=
  { region := "All", state := "All", category := "All",
    subCategory := "All", segment := "All",
    fromDate := ⟨2015, 1, 1⟩, toDate := ⟨2018, 12, 31⟩ }

/-- A row with zero sales and non-zero profit, exercising the
divide-by-zero policy. -/
def zeroSalesRow : Record :=
  { orderDate := ⟨2016, 1, 15⟩, region := "South", state := "Texas",
    category := "Furniture", subCategory := "Chairs",
    segment := "Consumer", productName := "Desk Chair",
    sales := 0, profit := 5, quantity := 1 }

/-! ### C1: the margin-rate derivation -/

/-- C1 counterexample: on a one-row frame with Sales 0 and Profit 5 the
whole-dataset KPI (line 143, `... if total_sales != 0 else 0`) is 0,
while the spec's single function `marginRate` applied to the totals is
5 — so the whole-dataset KPI is not `marginRate(total_sales,
total_profit)`, and the divide-by-zero policy is not applied
identically at the whole-dataset level. -/
theorem c1_counterexample :
    margin_rate [zeroSalesRow] = 0 ∧
    marginRate (total_sales [zeroSalesRow]) (total_profit [zeroSalesRow]) = 5 ∧
    margin_rate [zeroSalesRow] ≠
      marginRate (total_sales [zeroSalesRow]) (total_profit [zeroSalesRow]) := by
  have h1 : margin_rate [zeroSalesRow] = 0 := by
    simp [margin_rate, total_sales, total_profit, zeroSalesRow]
  have h2 : marginRate (total_sales [zeroSalesRow])
      (total_profit [zeroSalesRow]) = 5 := by
    simp [marginRate, total_sales, total_profit, zeroSalesRow]
  refine ⟨h1, h2, ?_⟩
  rw [h1, h2]
  norm_num

/-- C1 (amended): `marginRate(sales, profit)` is `profit` when sales is
0 and `profit / sales` otherwise; every per-group view derives its
Margin Rate as `marginRate` of the group's sums; and the whole-dataset
KPI agrees with `marginRate(total_sales, total_profit)` whenever
`total_sales ≠ 0` — but returns 0, not the total profit, when
`total_sales = 0`. -/
theorem c1_margin_rate_policy :
    (∀ p : ℚ, marginRate 0 p = p) ∧
    (∀ s p : ℚ, s ≠ 0 → marginRate s p = p / s) ∧
    (∀ (κ : Type) (inst : DecidableEq κ) (kle : κ → κ → Bool)
        (key : Record → κ) (rows : List Record) (g : AggRow κ),
        g ∈ @aggView κ inst kle key rows →
          g.marginRate = marginRate g.sales g.profit) ∧
    (∀ rows : List Record, total_sales rows ≠ 0 →
        margin_rate rows = marginRate (total_sales rows) (total_profit rows)) := by
  refine ⟨?_, ?_, ?_, ?_⟩
  · intro p; simp [marginRate]
  · intro s p hs; simp [marginRate, hs]
  · intro κ inst kle key rows g hg
    exact aggView_marginRate kle key rows g hg
  · intro rows hts
    have hne : ¬ rows.isEmpty := by
      intro he
      rw [List.isEmpty_iff] at he
      rw [he] at hts
      exact hts rfl
    unfold margin_rate marginRate
    rw [if_neg hne, if_pos hts, if_pos hts]

/-- Witness for the amended C1 at a concrete input. -/
theorem c1_margin_rate_policy_witness :
    margin_rate [eastRow] =
      marginRate (total_sales [eastRow]) (total_profit [eastRow]) :=
  c1_margin_rate_policy.2.2.2 [eastRow]
    (by simp [total_sales, eastRow])

/-! ### C2: filtering yields a constrained subset -/

/-- C2: every row of the fully filtered frame is a row of the original
frame, matches each selector that is set, and has its Order Date inside
the inclusive range. -/
theorem c2_applyFilters_subset (rows : List Record) (fs : FilterState)
    (r : Record) (hr : r ∈ applyFilters rows fs) :
    r ∈ rows ∧
    (fs.region ≠ "All" → r.region = fs.region) ∧
    (fs.state ≠ "All" → r.state = fs.state) ∧
    (fs.category ≠ "All" → r.category = fs.category) ∧
    (fs.subCategory ≠ "All" → r.subCategory = fs.subCategory) ∧
    (fs.segment ≠ "All" → r.segment = fs.segment) ∧
    Date.le fs.fromDate r.orderDate ∧ Date.le r.orderDate fs.toDate := by
  unfold applyFilters at hr
  rcases List.mem_filter.mp hr with ⟨h5, hdate⟩
  rcases Bool.and_eq_true_iff.mp hdate with ⟨hd1, hd2⟩
  rcases mem_filterEq _ _ _ _ h5 with ⟨h4, hseg⟩
  rcases mem_filterEq _ _ _ _ h4 with ⟨h3, hsub⟩
  rcases mem_filterEq _ _ _ _ h3 with ⟨h2, hcat⟩
  rcases mem_filterEq _ _ _ _ h2 with ⟨h1, hst⟩
  rcases mem_filterEq _ _ _ _ h1 with ⟨h0, hreg⟩
  exact ⟨h0, hreg, hst, hcat, hsub, hseg,
    of_decide_eq_true hd1, of_decide_eq_true hd2⟩

/-- Witness for C2 at a concrete row and filter state. -/
theorem c2_applyFilters_subset_witness :
    eastRow ∈ [eastRow] ∧
    (allFs.region ≠ "All" → eastRow.region = allFs.region) ∧
    (allFs.state ≠ "All" → eastRow.state = allFs.state) ∧
    (allFs.category ≠ "All" → eastRow.category = allFs.category) ∧
    (allFs.subCategory ≠ "All" → eastRow.subCategory = allFs.subCategory) ∧
    (allFs.segment ≠ "All" → eastRow.segment = allFs.segment) ∧
    Date.le allFs.fromDate eastRow.orderDate ∧
    Date.le eastRow.orderDate allFs.toDate := by
  have he : applyFilters [eastRow] allFs = [eastRow] := by
    simp [applyFilters, df_segment, df_subcat, df_filtered_category,
      df_filtered_state, df_filtered_region, filterEq, allFs, eastRow,
      Date.le]
  exact c2_applyFilters_subset [eastRow] allFs eastRow
    (he ▸ List.mem_singleton.mpr rfl)

/-! ### C3: the top-10 ranking -/

/-- Two products with equal metrics, for the tie-order analysis. -/
def tieRowA : Record :=
  { orderDate := ⟨2016, 3, 10⟩, region := "East", state := "New York",
    category := "Furniture", subCategory := "Chairs",
    segment := "Consumer", productName := "Alpha",
    sales := 10, profit := 1, quantity := 1 }

def tieRowB : Record :=
  { tieRowA with productName := "Beta" }

def tieRows : List Record := [tieRowA, tieRowB]

/-- The grouped row of product "Alpha" in `tieRows`. -/
def tieAggA : AggRow String :=
  { key := "Alpha", sales := 10, quantity := 1, profit := 1,
    marginRate := 1 / 10 }

/-- The grouped row of product "Beta" in `tieRows`. -/
def tieAggB : AggRow String :=
  { key := "Beta", sales := 10, quantity := 1, profit := 1,
    marginRate := 1 / 10 }

theorem product_grouped_tieRows :
    product_grouped tieRows = [tieAggA, tieAggB] := by
  have hle : strLe "Alpha" "Beta" = true := by decide
  simp [product_grouped, aggView, uniqueKeys, tieRows, tieRowA, tieRowB,
    insertionSort, orderedInsert, hle, tieAggA, tieAggB]

/-- C3 counterexample: two products, Alpha before Beta in the grouped
view, with equal metrics.  The claim's stable descending sort keeps
Alpha first; the code (pandas: an ascending argsort whose indexer is
reversed) returns Beta first — ties are broken by the reverse of the
original grouping-key order, not by it. -/
theorem c3_counterexample :
    top_10 tieRows KPI.sales ≠
      topN_spec (KPI.value KPI.sales) 10 (product_grouped tieRows) ∧
    (top_10 tieRows KPI.sales).map AggRow.key = ["Beta", "Alpha"] ∧
    (topN_spec (KPI.value KPI.sales) 10
        (product_grouped tieRows)).map AggRow.key = ["Alpha", "Beta"] := by
  have h2 : top_10 tieRows KPI.sales = [tieAggB, tieAggA] := by
    rw [top_10, product_grouped_tieRows]
    simp [sort_values_desc, insertionSort, orderedInsert, KPI.value,
      tieAggA, tieAggB]
  have h3 : topN_spec (KPI.value KPI.sales) 10 (product_grouped tieRows)
      = [tieAggA, tieAggB] := by
    rw [product_grouped_tieRows, topN_spec]
    simp [insertionSort, orderedInsert, KPI.value, tieAggA, tieAggB]
  refine ⟨?_, ?_, ?_⟩
  · rw [h2, h3]
    simp [tieAggA, tieAggB]
  · rw [h2]; rfl
  · rw [h3]; rfl

/-- C3 (amended): the top-10 list is the 10-prefix of a permutation of
the product view sorted descending by the selected metric, and its
length is min(10, number of distinct products); but ties are broken by
the REVERSE of the view's grouping-key order (pandas descending sort
reverses a stable ascending argsort), not by the original order. -/
theorem c3_top10_ranking (rows : List Record) (kpi : KPI) :
    (top_10 rows kpi).length = min 10 (product_grouped rows).length ∧
    SortedB (fun a b => decide (KPI.value kpi b ≤ KPI.value kpi a))
      (top_10 rows kpi) ∧
    ∃ l : List (AggRow String),
      List.Perm l (product_grouped rows) ∧
      SortedB (fun a b => decide (KPI.value kpi b ≤ KPI.value kpi a)) l ∧
      top_10 rows kpi = l.take 10 := by
  have hsorted : SortedB
      (fun a b => decide (KPI.value kpi b ≤ KPI.value kpi a))
      ((insertionSort (fun a b => decide (KPI.value kpi a ≤ KPI.value kpi b))
        (product_grouped rows)).reverse) := by
    rw [SortedB, List.pairwise_reverse]
    exact sortedB_insertionSort _
      (fun a b => (le_total (KPI.value kpi a) (KPI.value kpi b)).imp
        decide_eq_true decide_eq_true)
      (fun a b c h1 h2 => decide_eq_true
        (le_trans (of_decide_eq_true h1) (of_decide_eq_true h2)))
      (product_grouped rows)
  have hperm : List.Perm
      ((insertionSort (fun a b => decide (KPI.value kpi a ≤ KPI.value kpi b))
        (product_grouped rows)).reverse) (product_grouped rows) :=
    (List.reverse_perm _).trans (perm_insertionSort _ _)
  refine ⟨?_, ?_, ?_⟩
  · simp only [top_10, sort_values_desc, List.length_take,
      List.length_reverse]
    rw [(perm_insertionSort _ _).length_eq]
  · exact List.Pairwise.sublist (List.take_sublist _ _) hsorted
  · exact ⟨_, hperm, hsorted, rfl⟩

/-! ### C4: the empty filtered frame -/

/-- Line 191: the script's warning flag for an empty filtered frame. -/
def no_data_warning (l : List Record) : Bool := l.isEmpty

/-- C4: when every row is filtered out, the four KPIs are exactly 0 and
every grouped view is empty; all computations are total, so nothing is
raised. -/
theorem c4_empty_frame (rows : List Record) (fs : FilterState)
    (h : applyFilters rows fs = []) :
    total_sales (applyFilters rows fs) = 0 ∧
    total_quantity (applyFilters rows fs) = 0 ∧
    total_profit (applyFilters rows fs) = 0 ∧
    margin_rate (applyFilters rows fs) = 0 ∧
    no_data_warning (applyFilters rows fs) = true ∧
    daily_grouped (applyFilters rows fs) = [] ∧
    product_grouped (applyFilters rows fs) = [] ∧
    year_segment_grouped (applyFilters rows fs) = [] ∧
    (∀ lookup, state_grouped lookup (applyFilters rows fs) = []) ∧
    quarterly_grouped (applyFilters rows fs) = [] ∧
    quarterly_data (applyFilters rows fs) = [] ∧
    df_grouped_new (applyFilters rows fs) = [] := by
  rw [h]
  exact ⟨rfl, rfl, rfl, rfl, rfl, rfl, rfl, rfl, fun lookup => rfl,
    rfl, rfl, rfl⟩

/-- A filter state whose Segment selection matches no row of
`[eastRow]`. -/
def noMatchFs : FilterState :=
  { allFs with segment := "Home Office" }

/-- Witness for C4: the Segment selection filters out the only row. -/
theorem c4_empty_frame_witness :
    total_sales (applyFilters [eastRow] noMatchFs) = 0 ∧
    total_quantity (applyFilters [eastRow] noMatchFs) = 0 ∧
    total_profit (applyFilters [eastRow] noMatchFs) = 0 ∧
    margin_rate (applyFilters [eastRow] noMatchFs) = 0 ∧
    no_data_warning (applyFilters [eastRow] noMatchFs) = true ∧
    daily_grouped (applyFilters [eastRow] noMatchFs) = [] ∧
    product_grouped (applyFilters [eastRow] noMatchFs) = [] ∧
    year_segment_grouped (applyFilters [eastRow] noMatchFs) = [] ∧
    (∀ lookup, state_grouped lookup (applyFilters [eastRow] noMatchFs) = []) ∧
    quarterly_grouped (applyFilters [eastRow] noMatchFs) = [] ∧
    quarterly_data (applyFilters [eastRow] noMatchFs) = [] ∧
    df_grouped_new (applyFilters [eastRow] noMatchFs) = [] :=
  c4_empty_frame [eastRow] noMatchFs (by decide)

/-! ### C5: additivity of the grouped sums -/

/-- C5: for every grouping key (hence for each of the six views), the
per-group sums of Sales, Quantity and Profit add up to the
whole-frame KPI totals. -/
theorem c5_group_sums_additive (κ : Type) (inst : DecidableEq κ)
    (kle : κ → κ → Bool) (key : Record → κ) (rows : List Record) :
    ((@aggView κ inst kle key rows).map AggRow.sales).sum
        = total_sales rows ∧
    ((@aggView κ inst kle key rows).map AggRow.quantity).sum
        = total_quantity rows ∧
    ((@aggView κ inst kle key rows).map AggRow.profit).sum
        = total_profit rows := by
  rcases sortedKeys_nodup_cov kle key rows with ⟨hnd, hcov⟩
  refine ⟨?_, ?_, ?_⟩
  · rw [total_sales_eq_sum]
    rw [← sum_map_filter_key Record.sales key _ hnd rows hcov]
    unfold aggView
    rw [List.map_map]
    rfl
  · rw [total_quantity_eq_sum]
    rw [← sum_map_filter_key Record.quantity key _ hnd rows hcov]
    unfold aggView
    rw [List.map_map]
    rfl
  · rw [total_profit_eq_sum]
    rw [← sum_map_filter_key Record.profit key _ hnd rows hcov]
    unfold aggView
    rw [List.map_map]
    rfl

/-! ### C6: cascading option sets -/

/-- What the spec asks of one option list: "All" first, then the
sorted, duplicate-free values of the column over the narrowed frame —
exactly the distinct values occurring there — with the value part
non-empty whenever the narrowed frame is non-empty. -/
def OptionsSpec (opts : List String) (get : Record → String)
    (l : List Record) : Prop :=
  opts.head? = some "All" ∧
  SortedB strLe opts.tail ∧
  opts.tail.Nodup ∧
  (∀ x, x ∈ opts.tail ↔ ∃ r ∈ l, get r = x) ∧
  (l ≠ [] → opts ≠ [] ∧ opts.tail ≠ [])

theorem optionsOf_spec (get : Record → String) (l : List Record) :
    OptionsSpec (optionsOf get l) get l := by
  unfold OptionsSpec optionsOf
  simp only [List.head?_cons, List.tail_cons]
  refine ⟨trivial, ?_, ?_, ?_, ?_⟩
  · exact sortedB_insertionSort strLe strLe_total strLe_trans _
  · exact (perm_insertionSort _ _).symm.nodup (uniqueKeys_nodup _)
  · intro x
    rw [(perm_insertionSort _ _).mem_iff, mem_uniqueKeys, List.mem_map]
  · intro hne
    refine ⟨List.cons_ne_nil _ _, ?_⟩
    rcases List.exists_mem_of_ne_nil l hne with ⟨r, hr⟩
    have hm : get r ∈ insertionSort strLe (uniqueKeys (l.map get)) := by
      rw [(perm_insertionSort _ _).mem_iff, mem_uniqueKeys]
      exact List.mem_map_of_mem get hr
    exact List.ne_nil_of_mem hm

/-- C6: each selector's option list is the synthetic "All" followed by
the sorted distinct values of its column over the frame narrowed by all
earlier filters in the fixed order; its value part is non-empty
whenever that narrowed frame is non-empty, and "All" is always
present. -/
theorem c6_option_sets (rows : List Record) (fs : FilterState) :
    OptionsSpec (region_options rows) Record.region rows ∧
    OptionsSpec (state_options rows fs) Record.state
      (df_filtered_region rows fs) ∧
    OptionsSpec (category_options rows fs) Record.category
      (df_filtered_state rows fs) ∧
    OptionsSpec (subcat_options rows fs) Record.subCategory
      (df_filtered_category rows fs) ∧
    OptionsSpec (segment_options rows fs) Record.segment
      (df_subcat rows fs) :=
  ⟨optionsOf_spec _ _, optionsOf_spec _ _, optionsOf_spec _ _,
    optionsOf_spec _ _, optionsOf_spec _ _⟩

/-- Witness for C6 at a concrete frame. -/
theorem c6_option_sets_witness :
    OptionsSpec (region_options [eastRow]) Record.region [eastRow] :=
  (c6_option_sets [eastRow] allFs).1

/-! ### C7: order-independence of the predicates -/

/-- The six predicates of a filter state, in the script's order; a
selector set to "All" contributes the always-true predicate its stage
is (passing the frame through unchanged). -/
def predList (fs : FilterState) : List (Record → Bool) :=
  [fun r => decide (fs.region = "All") || decide (r.region = fs.region),
   fun r => decide (fs.state = "All") || decide (r.state = fs.state),
   fun r => decide (fs.category = "All") || decide (r.category = fs.category),
   fun r => decide (fs.subCategory = "All") ||
     decide (r.subCategory = fs.subCategory),
   fun r => decide (fs.segment = "All") || decide (r.segment = fs.segment),
   fun r => decide (Date.le fs.fromDate r.orderDate) &&
     decide (Date.le r.orderDate fs.toDate)]

/-- Apply a list of mask predicates left to right. -/
def applyPreds (ps : List (Record → Bool)) (rows : List Record) :
    List Record :=
  ps.foldl (fun acc p => acc.filter p) rows

theorem applyPreds_eq_filter_all (ps : List (Record → Bool))
    (rows : List Record) :
    applyPreds ps rows = rows.filter (fun r => ps.all (fun p => p r)) := by
  induction ps generalizing rows with
  | nil => simp [applyPreds]
  | cons p ps ih =>
    show applyPreds ps (rows.filter p) = _
    rw [ih, List.filter_filter]
    apply List.filter_congr
    intro r hr
    simp [Bool.and_comm]

theorem filterEq_eq_filter (get : Record → String) (sel : String)
    (l : List Record) :
    filterEq get sel l
      = l.filter (fun r => decide (sel = "All") || decide (get r = sel)) := by
  unfold filterEq
  by_cases h : sel = "All"
  · simp [h]
  · simp [h]

theorem applyFilters_eq_applyPreds (rows : List Record)
    (fs : FilterState) :
    applyFilters rows fs = applyPreds (predList fs) rows := by
  simp only [predList, applyPreds, List.foldl_cons, List.foldl_nil]
  unfold applyFilters df_segment df_subcat df_filtered_category
    df_filtered_state df_filtered_region
  rw [filterEq_eq_filter, filterEq_eq_filter, filterEq_eq_filter,
    filterEq_eq_filter, filterEq_eq_filter]

theorem perm_all_eq {α : Type} (ps qs : List (α → Bool))
    (h : List.Perm ps qs) (x : α) :
    ps.all (fun p => p x) = qs.all (fun p => p x) := by
  induction h with
  | nil => rfl
  | cons p h ih => simp only [List.all_cons, ih]
  | swap a b l =>
    simp only [List.all_cons]
    cases a x <;> cases b x <;> simp
  | trans h1 h2 ih1 ih2 => exact ih1.trans ih2

/-- C7: applying the six predicates in any order yields exactly the
frame produced by the fixed Region, State, Category, Sub-Category,
Segment, date order. -/
theorem c7_filter_order_invariant (rows : List Record)
    (fs : FilterState) (ps : List (Record → Bool))
    (hp : List.Perm ps (predList fs)) :
    applyPreds ps rows = applyFilters rows fs := by
  rw [applyFilters_eq_applyPreds, applyPreds_eq_filter_all,
    applyPreds_eq_filter_all]
  apply List.filter_congr
  intro r hr
  exact perm_all_eq ps (predList fs) hp r

/-- Witness for C7: the six predicates applied in reverse order. -/
theorem c7_filter_order_invariant_witness :
    applyPreds ((predList allFs).reverse) [eastRow]
      = applyFilters [eastRow] allFs :=
  c7_filter_order_invariant [eastRow] allFs ((predList allFs).reverse)
    (List.reverse_perm (predList allFs))

/-! ### C8: inverted date range -/

/-- C8: when the From date is strictly after the To date the script
shows its sidebar message (`dateRangeError`) and still filters with the
given inclusive bounds, which keep no row. -/
theorem c8_inverted_date_range (rows : List Record) (fs : FilterState)
    (h : Date.lt fs.toDate fs.fromDate) :
    dateRangeError fs = true ∧ applyFilters rows fs = [] := by
  refine ⟨decide_eq_true h, ?_⟩
  unfold applyFilters
  rw [List.filter_eq_nil_iff]
  intro r hr hcontra
  rcases Bool.and_eq_true_iff.mp hcontra with ⟨h1, h2⟩
  have hf := of_decide_eq_true h1
  have ht := of_decide_eq_true h2
  unfold Date.le at hf ht
  unfold Date.lt at h
  omega

/-- A filter state whose date range is inverted. -/
def badRangeFs : FilterState :=
  { allFs with fromDate := ⟨2018, 12, 31⟩, toDate := ⟨2015, 1, 1⟩ }

/-- Witness for C8. -/
theorem c8_inverted_date_range_witness :
    dateRangeError badRangeFs = true ∧
      applyFilters [eastRow] badRangeFs = [] :=
  c8_inverted_date_range [eastRow] badRangeFs (by decide)

/-! ### C9: the loaded frame is never mutated -/

theorem st_next_pos_chain (rows : List Record) (fs : FilterState) :
    0 < ((stRegion rows fs).1).next ∧ 0 < ((stState rows fs).1).next ∧
    0 < ((stCopy1 rows fs).1).next ∧ 0 < ((stSubcat rows fs).1).next ∧
    0 < ((stCopy2 rows fs).1).next := by
  have h0 : (loadStore rows).next = 1 := rfl
  have h1 : (loadStore rows).next ≤ ((stRegion rows fs).1).next :=
    stageFilter_next_le _ _ _ _
  have h2 : ((stRegion rows fs).1).next ≤ ((stState rows fs).1).next :=
    stageFilter_next_le _ _ _ _
  have h3 : ((stState rows fs).1).next ≤ ((stCategory rows fs).1).next :=
    stageFilter_next_le _ _ _ _
  have h4 : ((stCopy1 rows fs).1).next = ((stCategory rows fs).1).next + 1 :=
    rfl
  have h5 : ((stCopy1 rows fs).1).next ≤ ((stSubcat rows fs).1).next :=
    stageFilter_next_le _ _ _ _
  have h6 : ((stCopy2 rows fs).1).next = ((stSubcat rows fs).1).next + 1 :=
    rfl
  omega

/-- C9: after the whole pipeline — five filter stages (with their
aliasing when a selector is "All"), two `.copy()` calls, the date mask,
the State normalization and the Year / Order Date / Quarter /
Margin Rate column writes — the loaded frame at address 0 still holds
exactly the loaded rows: every in-place write lands on a frame
allocated after the line-62 copy, never on `df_original`. -/
theorem c9_original_never_mutated (rows : List Record)
    (fs : FilterState) (lookup : String → Option String) :
    (pipelineStore rows fs lookup).read 0 = baseFrame rows := by
  have hid := stDate_id_pos rows fs
  have hne : (0 : Nat) ≠ (stDate rows fs).2 := by omega
  rcases st_next_pos_chain rows fs with ⟨p1, p2, p4, p5, p6⟩
  have p3 := stCategory_next_pos rows fs
  have p7 := stSegment_next_pos rows fs
  have hw : (pipelineStore rows fs lookup).read 0
      = ((stDate rows fs).1).read 0 := by
    unfold pipelineStore stQuarter stReparse stStateNorm stYear
    rw [Store.read_writeCol_ne _ _ _ _ hne,
      Store.read_writeCol_ne _ _ _ _ hne,
      Store.read_writeCol_ne _ _ _ _ hne,
      Store.read_writeCol_ne _ _ _ _ hne,
      Store.read_writeCol_ne _ _ _ _ hne]
  have h8 : ((stDate rows fs).1).read 0 = ((stSegment rows fs).1).read 0 :=
    Store.read_alloc _ _ _ p7
  have h7 : ((stSegment rows fs).1).read 0 = ((stCopy2 rows fs).1).read 0 :=
    stageFilter_read _ _ _ _ 0 p6
  have h6 : ((stCopy2 rows fs).1).read 0 = ((stSubcat rows fs).1).read 0 :=
    Store.read_alloc _ _ _ p5
  have h5 : ((stSubcat rows fs).1).read 0 = ((stCopy1 rows fs).1).read 0 :=
    stageFilter_read _ _ _ _ 0 p4
  have h4 : ((stCopy1 rows fs).1).read 0 = ((stCategory rows fs).1).read 0 :=
    Store.read_alloc _ _ _ p3
  have h3 : ((stCategory rows fs).1).read 0 = ((stState rows fs).1).read 0 :=
    stageFilter_read _ _ _ _ 0 p2
  have h2 : ((stState rows fs).1).read 0 = ((stRegion rows fs).1).read 0 :=
    stageFilter_read _ _ _ _ 0 p1
  have h1 : ((stRegion rows fs).1).read 0 = (loadStore rows).read 0 :=
    stageFilter_read _ _ _ _ 0 Nat.zero_lt_one
  have hload : (loadStore rows).read 0 = baseFrame rows := by
    show Function.update (fun _ => ([] : List XRecord)) 0 (baseFrame rows) 0
      = baseFrame rows
    rw [Function.update_same]
  rw [hw, h8, h7, h6, h5, h4, h3, h2, h1, hload]

/-! ### C10: the extra (Category, Quarter) view -/

/-- Two rows, same Category, same quarter (2016 Q1), each with
Sales 1 and Profit 1, so each per-row margin rate is 1. -/
def c10RowA : Record :=
  { orderDate := ⟨2016, 1, 5⟩, region := "East", state := "New York",
    category := "Furniture", subCategory := "Chairs",
    segment := "Consumer", productName := "Desk Chair",
    sales := 1, profit := 1, quantity := 1 }

def c10RowB : Record :=
  { c10RowA with orderDate := ⟨2016, 2, 5⟩, productName := "Lamp" }

def c10Rows : List Record := [c10RowA, c10RowB]

/-- The single (Category, Quarter) key of `c10Rows`. -/
def c10Key : String × String :=
  ("Furniture", Date.quarterLabel ⟨2016, 1, 5⟩)

/-- The single row of `df_grouped_new c10Rows`: note Margin Rate 2,
the sum of the two per-row rates, while SumProfit / SumSales is 1. -/
def c10Agg : AggRow (String × String) :=
  { key := c10Key, sales := 2, quantity := 2, profit := 2,
    marginRate := 2 }

theorem df_grouped_new_c10Rows : df_grouped_new c10Rows = [c10Agg] := by
  have hkey : (Date.quarterLabel ⟨2016, 2, 5⟩)
      = Date.quarterLabel ⟨2016, 1, 5⟩ := by
    norm_num [Date.quarterLabel]
  simp [df_grouped_new, c10Rows, c10RowA, c10RowB, uniqueKeys,
    insertionSort, orderedInsert, rowMarginRate, hkey, c10Agg, c10Key]
  norm_num

/-- C10: the (Category, Quarter) view `df_grouped_new` (lines 380–385)
computes each group's Margin Rate by summing the line-288 per-row
margin rates, and on a concrete group of two rows this differs from
the SumProfit / SumSales policy of the other views (2 versus 1). -/
theorem c10_extra_view_sums_row_margins :
    (∀ (rows : List Record) (g : AggRow (String × String)),
      g ∈ df_grouped_new rows →
        g.marginRate = ((rows.filter (fun r =>
            decide ((r.category, r.orderDate.quarterLabel) = g.key))).map
          rowMarginRate).sum) ∧
    (∃ g ∈ df_grouped_new c10Rows,
      2 ≤ (c10Rows.filter (fun r =>
        decide ((r.category, r.orderDate.quarterLabel) = g.key))).length ∧
      g.marginRate ≠ marginRate g.sales g.profit) := by
  constructor
  · intro rows g hg
    unfold df_grouped_new at hg
    rcases List.mem_map.mp hg with ⟨k, hk, rfl⟩
    rfl
  · refine ⟨c10Agg, by rw [df_grouped_new_c10Rows]; exact
      List.mem_singleton.mpr rfl, ?_, ?_⟩
    · have hkey : (Date.quarterLabel ⟨2016, 2, 5⟩)
          = Date.quarterLabel ⟨2016, 1, 5⟩ := by
        norm_num [Date.quarterLabel]
      simp [c10Rows, c10RowA, c10RowB, c10Agg, c10Key, hkey]
    · have h1 : c10Agg.marginRate = 2 := rfl
      have h2 : marginRate c10Agg.sales c10Agg.profit = 1 := by
        norm_num [marginRate, c10Agg]
      rw [h1, h2]
      norm_num

/-- Witness for C10: the general margin-as-sum law applied to the
concrete view row of `c10Rows`. -/
theorem c10_extra_view_sums_row_margins_witness :
    c10Agg.marginRate = ((c10Rows.filter (fun r =>
        decide ((r.category, r.orderDate.quarterLabel) = c10Agg.key))).map
      rowMarginRate).sum :=
  c10_extra_view_sums_row_margins.1 c10Rows c10Agg
    (by rw [df_grouped_new_c10Rows]; exact List.mem_singleton.mpr rfl)
